import Mathlib

/-!
Verification development for the learnAI backend (src/backend/main.py).

The definitions below are a shallow embedding of the lesson/quiz
post-processing pipeline of `generate_lesson` and `generate_quiz`:

* a byte-level model of Python's `base64.b64encode` / `base64.b64decode`
  (CPython `binascii.a2b_base64` in non-strict mode: characters outside
  the alphabet are discarded, a padding character arriving when the
  current quantum holds at least two data characters terminates
  decoding, and a dangling quantum at end of input is an error);
* the segment data model (`SegmentRecord`, `CombinedSegment`), the
  per-slot segment extraction, the audio-role detection, the per-record
  audio processing (scalar strings kept verbatim, chunk lists decoded,
  concatenated and re-encoded), the id-keyed maps with last-write-wins
  lookup, and the merge by ascending `segment_id`;
* the quiz formatting (`formatQuestions`) with answer resolution by
  exact then case-insensitive trimmed match.

Bytes are modelled as `Nat` values below 256 and Python `dict`s as
insertion-ordered association lists whose lookup takes the last binding.
-/

deriving instance DecidableEq for Except

namespace LearnAI

/-! ## Base64: CPython `binascii` model -/

/-- Value of a base64 alphabet character (the `table_a2b_base64` table of
CPython's `binascii`), `none` for characters outside the alphabet. -/
def sextetVal (c : Char) : Option Nat :=
  if 65 ≤ c.toNat ∧ c.toNat ≤ 90 then some (c.toNat - 65)
  else if 97 ≤ c.toNat ∧ c.toNat ≤ 122 then some (c.toNat - 97 + 26)
  else if 48 ≤ c.toNat ∧ c.toNat ≤ 57 then some (c.toNat - 48 + 52)
  else if c.toNat = 43 then some 62
  else if c.toNat = 47 then some 63
  else none

/-- Character used by `b64encode` for a 6-bit value. -/
def encodeChar (n : Nat) : Char :=
  Char.ofNat (if n < 26 then n + 65 else if n < 52 then n + 71
    else if n < 62 then n - 4 else if n = 62 then 43 else 47)

/-- State machine of CPython `binascii.a2b_base64` (non-strict mode).
`quadPos` is the number of data characters in the current quantum,
`leftchar` the pending bits, `pads` the count of adjacent padding
characters, `acc` the reversed output. A `'='` (code 61) seen with
`quadPos ≥ 2` that completes the quantum ends decoding; invalid
characters are discarded; a leftover quantum at end of input fails. -/
def b64decodeAux : List Char → Nat → Nat → Nat → List Nat → Option (List Nat)
  | [], quadPos, _, _, acc => if quadPos = 0 then some acc.reverse else none
  | c :: rest, quadPos, leftchar, pads, acc =>
    if c.toNat = 61 then
      if 2 ≤ quadPos ∧ 4 ≤ quadPos + (pads + 1) then some acc.reverse
      else if 2 ≤ quadPos then b64decodeAux rest quadPos leftchar (pads + 1) acc
      else b64decodeAux rest quadPos leftchar pads acc
    else
      match sextetVal c with
      | none => b64decodeAux rest quadPos leftchar pads acc
      | some v =>
        if quadPos = 0 then b64decodeAux rest 1 v 0 acc
        else if quadPos = 1 then
          b64decodeAux rest 2 (v % 16) 0 ((leftchar * 4 + v / 16) :: acc)
        else if quadPos = 2 then
          b64decodeAux rest 3 (v % 4) 0 ((leftchar * 16 + v / 4) :: acc)
        else b64decodeAux rest 0 0 0 ((leftchar * 64 + v) :: acc)

/-- Python `base64.b64decode` applied to a `str`: the string is first
ASCII-encoded (failing on non-ASCII characters), then fed to the
`binascii` state machine. `none` stands for a raised `binascii.Error`
(or `UnicodeEncodeError`). -/
def pyB64Decode (s : String) : Option (List Nat) :=
  if s.data.all (fun c => c.toNat < 128) then b64decodeAux s.data 0 0 0 [] else none

/-- Python `base64.b64encode` on a byte string, as characters. -/
def b64encodeBytes : List Nat → List Char
  | a :: b :: c :: rest =>
    encodeChar (a / 4) :: encodeChar (a % 4 * 16 + b / 16) ::
      encodeChar (b % 16 * 4 + c / 64) :: encodeChar (c % 64) :: b64encodeBytes rest
  | [a, b] => [encodeChar (a / 4), encodeChar (a % 4 * 16 + b / 16),
      encodeChar (b % 16 * 4), '=']
  | [a] => [encodeChar (a / 4), encodeChar (a % 4 * 16), '=', '=']
  | [] => []

/-- Python `base64.b64encode(...).decode("utf-8")`. -/
def pyB64Encode (bs : List Nat) : String := ⟨b64encodeBytes bs⟩

/-- The chunk combination of `generate_lesson` STEP 3: each chunk is
base64-decoded to binary, the binary parts are concatenated in list
order, and the result is re-encoded once. `none` when any chunk fails
to decode (the raised `binascii.Error`). -/
def combineChunks (chunks : List String) : Option String :=
  (chunks.mapM pyB64Decode).map (fun parts => pyB64Encode parts.flatten)

theorem sextetVal_encodeChar : ∀ n : Fin 64, sextetVal (encodeChar n.val) = some n.val := by
  decide

theorem encodeChar_toNat_lt : ∀ n : Fin 64, (encodeChar n.val).toNat < 128 := by
  decide

theorem encodeChar_toNat_ne : ∀ n : Fin 64, (encodeChar n.val).toNat ≠ 61 := by
  decide

theorem sextetVal_lt {c : Char} {v : Nat} (h : sextetVal c = some v) : v < 64 := by
  unfold sextetVal at h
  split_ifs at h
  all_goals (injection h with h; omega)

theorem sextetVal_toNat_ne61 {c : Char} {v : Nat} (h : sextetVal c = some v) :
    c.toNat ≠ 61 := by
  unfold sextetVal at h
  split_ifs at h with h1 h2 h3 h4 h5
  all_goals omega

theorem sextetVal_encodeChar_eq {k : Nat} (hk : k < 64) :
    sextetVal (encodeChar k) = some k :=
  sextetVal_encodeChar ⟨k, hk⟩

theorem encodeChar_lt128 {k : Nat} (hk : k < 64) : (encodeChar k).toNat < 128 :=
  encodeChar_toNat_lt ⟨k, hk⟩

theorem b64decodeAux_nil (qp lc pads : Nat) (acc : List Nat) :
    b64decodeAux [] qp lc pads acc = if qp = 0 then some acc.reverse else none := rfl

theorem b64decodeAux_cons_data {c : Char} {v : Nat} (h : sextetVal c = some v)
    (rest : List Char) (qp lc pads : Nat) (acc : List Nat) :
    b64decodeAux (c :: rest) qp lc pads acc =
      if qp = 0 then b64decodeAux rest 1 v 0 acc
      else if qp = 1 then b64decodeAux rest 2 (v % 16) 0 ((lc * 4 + v / 16) :: acc)
      else if qp = 2 then b64decodeAux rest 3 (v % 4) 0 ((lc * 16 + v / 4) :: acc)
      else b64decodeAux rest 0 0 0 ((lc * 64 + v) :: acc) := by
  have hne := sextetVal_toNat_ne61 h
  simp [b64decodeAux, hne, h]

theorem b64decodeAux_cons_pad (rest : List Char) (qp lc pads : Nat) (acc : List Nat) :
    b64decodeAux ('=' :: rest) qp lc pads acc =
      if 2 ≤ qp ∧ 4 ≤ qp + (pads + 1) then some acc.reverse
      else if 2 ≤ qp then b64decodeAux rest qp lc (pads + 1) acc
      else b64decodeAux rest qp lc pads acc := by
  have h61 : ('=' : Char).toNat = 61 := rfl
  simp [b64decodeAux, h61]

/-- Decoding an encoded byte string picks up exactly those bytes, with the
accumulator already holding previously emitted output (reversed). -/
theorem b64decodeAux_encodeBytes (bs : List Nat) (h : ∀ x ∈ bs, x < 256) :
    ∀ acc : List Nat, b64decodeAux (b64encodeBytes bs) 0 0 0 acc = some (acc.reverse ++ bs) := by
  induction bs using b64encodeBytes.induct with
  | case1 a b c rest ih =>
    intro acc
    have ha : a < 256 := h a (by simp)
    have hb : b < 256 := h b (by simp)
    have hc : c < 256 := h c (by simp)
    rw [b64encodeBytes,
      b64decodeAux_cons_data (sextetVal_encodeChar_eq (by omega)),
      if_pos rfl,
      b64decodeAux_cons_data (sextetVal_encodeChar_eq (by omega))]
    simp only [if_neg (by omega : (1 : Nat) ≠ 0), if_pos rfl]
    have e1 : a / 4 * 4 + (a % 4 * 16 + b / 16) / 16 = a := by omega
    have e2 : (a % 4 * 16 + b / 16) % 16 = b / 16 := by omega
    rw [e1, e2, b64decodeAux_cons_data (sextetVal_encodeChar_eq (by omega))]
    simp only [if_neg (by omega : (2 : Nat) ≠ 0), if_neg (by omega : (2 : Nat) ≠ 1),
      if_pos rfl]
    have e3 : b / 16 * 16 + (b % 16 * 4 + c / 64) / 4 = b := by omega
    have e4 : (b % 16 * 4 + c / 64) % 4 = c / 64 := by omega
    rw [e3, e4, b64decodeAux_cons_data (sextetVal_encodeChar_eq (by omega))]
    simp only [if_neg (by omega : (3 : Nat) ≠ 0), if_neg (by omega : (3 : Nat) ≠ 1),
      if_neg (by omega : (3 : Nat) ≠ 2)]
    have e5 : c / 64 * 64 + c % 64 = c := by omega
    rw [e5, ih (fun x hx => h x (by simp [hx]))]
    simp
  | case2 a b =>
    intro acc
    have ha : a < 256 := h a (by simp)
    have hb : b < 256 := h b (by simp)
    rw [b64encodeBytes,
      b64decodeAux_cons_data (sextetVal_encodeChar_eq (by omega)),
      if_pos rfl,
      b64decodeAux_cons_data (sextetVal_encodeChar_eq (by omega))]
    simp only [if_neg (by omega : (1 : Nat) ≠ 0), if_pos rfl]
    have e1 : a / 4 * 4 + (a % 4 * 16 + b / 16) / 16 = a := by omega
    have e2 : (a % 4 * 16 + b / 16) % 16 = b / 16 := by omega
    rw [e1, e2, b64decodeAux_cons_data (sextetVal_encodeChar_eq (by omega))]
    simp only [if_neg (by omega : (2 : Nat) ≠ 0), if_neg (by omega : (2 : Nat) ≠ 1),
      if_pos rfl]
    have e3 : b / 16 * 16 + (b % 16 * 4) / 4 = b := by omega
    rw [e3, b64decodeAux_cons_pad]
    simp
  | case3 a =>
    intro acc
    have ha : a < 256 := h a (by simp)
    rw [b64encodeBytes,
      b64decodeAux_cons_data (sextetVal_encodeChar_eq (by omega)),
      if_pos rfl,
      b64decodeAux_cons_data (sextetVal_encodeChar_eq (by omega))]
    simp only [if_neg (by omega : (1 : Nat) ≠ 0), if_pos rfl]
    have e1 : a / 4 * 4 + a % 4 * 16 / 16 = a := by omega
    rw [e1, b64decodeAux_cons_pad]
    simp only [if_neg (by omega : ¬((2 : Nat) ≤ 2 ∧ 4 ≤ 2 + (0 + 1))),
      if_pos (by omega : (2 : Nat) ≤ 2)]
    rw [b64decodeAux_cons_pad]
    simp
  | case4 =>
    intro acc
    simp [b64encodeBytes, b64decodeAux]

theorem b64encodeBytes_ascii (bs : List Nat) (h : ∀ x ∈ bs, x < 256) :
    ∀ c ∈ b64encodeBytes bs, c.toNat < 128 := by
  induction bs using b64encodeBytes.induct with
  | case1 a b c rest ih =>
    have ha : a < 256 := h a (by simp)
    have hb : b < 256 := h b (by simp)
    have hc : c < 256 := h c (by simp)
    intro x hx
    rw [b64encodeBytes] at hx
    simp only [List.mem_cons] at hx
    rcases hx with rfl | rfl | rfl | rfl | hx
    · exact encodeChar_lt128 (by omega)
    · exact encodeChar_lt128 (by omega)
    · exact encodeChar_lt128 (by omega)
    · exact encodeChar_lt128 (by omega)
    · exact ih (fun x hx => h x (by simp [hx])) x hx
  | case2 a b =>
    have ha : a < 256 := h a (by simp)
    have hb : b < 256 := h b (by simp)
    intro x hx
    rw [b64encodeBytes] at hx
    simp only [List.mem_cons, List.mem_singleton] at hx
    rcases hx with rfl | rfl | rfl | rfl | hx
    · exact encodeChar_lt128 (by omega)
    · exact encodeChar_lt128 (by omega)
    · exact encodeChar_lt128 (by omega)
    · decide
    · cases hx
  | case3 a =>
    have ha : a < 256 := h a (by simp)
    intro x hx
    rw [b64encodeBytes] at hx
    simp only [List.mem_cons, List.mem_singleton] at hx
    rcases hx with rfl | rfl | rfl | rfl | hx
    · exact encodeChar_lt128 (by omega)
    · exact encodeChar_lt128 (by omega)
    · decide
    · decide
    · cases hx
  | case4 =>
    intro x hx
    cases hx

/-- Round trip: Python `b64decode` inverts `b64encode` on byte strings. -/
theorem pyB64Decode_pyB64Encode (bs : List Nat) (h : ∀ x ∈ bs, x < 256) :
    pyB64Decode (pyB64Encode bs) = some bs := by
  unfold pyB64Decode pyB64Encode
  rw [if_pos]
  · simpa using b64decodeAux_encodeBytes bs h []
  · simpa [List.all_eq_true] using fun c hc => b64encodeBytes_ascii bs h c hc

/-- State invariant of the decoder: all emitted bytes are below 256. -/
theorem b64decodeAux_lt :
    ∀ (cs : List Char) (qp lc pads : Nat) (acc b : List Nat),
      (qp = 1 → lc < 64) → (qp = 2 → lc < 16) →
      (¬(qp = 0 ∨ qp = 1 ∨ qp = 2) → lc < 4) →
      (∀ x ∈ acc, x < 256) →
      b64decodeAux cs qp lc pads acc = some b → ∀ x ∈ b, x < 256 := by
  intro cs
  induction cs with
  | nil =>
    intro qp lc pads acc b _ _ _ hacc h
    rw [b64decodeAux_nil] at h
    split at h
    · injection h with h
      subst h
      simpa using hacc
    · exact Option.noConfusion h
  | cons c rest ih =>
    intro qp lc pads acc b h1 h2 h3 hacc h
    by_cases h61 : c.toNat = 61
    · simp only [b64decodeAux, if_pos h61] at h
      split_ifs at h
      · injection h with h
        subst h
        simpa using hacc
      · exact ih _ _ _ _ _ h1 h2 h3 hacc h
      · exact ih _ _ _ _ _ h1 h2 h3 hacc h
    · cases hv : sextetVal c with
      | none => simp only [b64decodeAux, if_neg h61, hv] at h
                exact ih _ _ _ _ _ h1 h2 h3 hacc h
      | some v =>
        have hvlt := sextetVal_lt hv
        simp only [b64decodeAux, if_neg h61, hv] at h
        split_ifs at h with hq0 hq1 hq2
        · exact ih _ _ _ _ _ (fun _ => hvlt) (by omega) (by omega) hacc h
        · have hlc : lc < 64 := h1 hq1
          refine ih _ _ _ _ _ (by omega) (fun _ => by omega) (by omega) ?_ h
          intro x hx
          rcases List.mem_cons.mp hx with rfl | hx
          · omega
          · exact hacc x hx
        · have hlc : lc < 16 := h2 hq2
          refine ih _ _ _ _ _ (by omega) (by omega) (fun _ => by omega) ?_ h
          intro x hx
          rcases List.mem_cons.mp hx with rfl | hx
          · omega
          · exact hacc x hx
        · have hlc : lc < 4 := h3 (by omega)
          refine ih _ _ _ _ _ (by omega) (by omega) (by omega) ?_ h
          intro x hx
          rcases List.mem_cons.mp hx with rfl | hx
          · omega
          · exact hacc x hx

/-- Bytes produced by a successful Python `b64decode` are below 256. -/
theorem pyB64Decode_lt {s : String} {b : List Nat} (h : pyB64Decode s = some b) :
    ∀ x ∈ b, x < 256 := by
  unfold pyB64Decode at h
  split at h
  · exact b64decodeAux_lt _ _ _ _ _ _ (by omega) (by omega) (by omega) (by simp) h
  · exact Option.noConfusion h

/-- C2: combining an ordered list of valid base64 chunks yields one base64
string that decodes to the byte concatenation of the chunks' byte strings in
list order, and this differs in general from decoding the naive concatenation
of the base64 strings (which Python truncates at the first complete padding,
so `"QQ==" ++ "QQ=="` decodes to one byte, not two). -/
theorem combineChunks_decodes_to_concat :
    (∀ (c1 c2 c3 : String) (b1 b2 b3 : List Nat),
        pyB64Decode c1 = some b1 → pyB64Decode c2 = some b2 →
        pyB64Decode c3 = some b3 →
        ∃ s, combineChunks [c1, c2, c3] = some s ∧
          pyB64Decode s = some (b1 ++ b2 ++ b3)) ∧
      (pyB64Decode "QQ==" = some [65] ∧
        pyB64Decode ("QQ==" ++ "QQ==") = some [65] ∧
        ([65] : List Nat) ≠ [65] ++ [65]) := by
  constructor
  · intro c1 c2 c3 b1 b2 b3 h1 h2 h3
    refine ⟨pyB64Encode (b1 ++ b2 ++ b3), ?_, ?_⟩
    · have hm : List.mapM pyB64Decode [c1, c2, c3] = some [b1, b2, b3] := by
        rw [List.mapM_cons, h1, List.mapM_cons, h2, List.mapM_cons, h3, List.mapM_nil]
        rfl
      unfold combineChunks
      rw [hm]
      simp [List.append_assoc]
    · refine pyB64Decode_pyB64Encode _ ?_
      intro x hx
      rcases List.mem_append.mp hx with hx | hx
      · rcases List.mem_append.mp hx with hx | hx
        · exact pyB64Decode_lt h1 x hx
        · exact pyB64Decode_lt h2 x hx
      · exact pyB64Decode_lt h3 x hx
  · refine ⟨by decide, by decide, by decide⟩

/-- Witness for `combineChunks_decodes_to_concat` at concrete chunks. -/
theorem combineChunks_decodes_to_concat_witness :
    ∃ s, combineChunks ["QQ==", "QkI=", "S0s="] = some s ∧
      pyB64Decode s = some ([65] ++ [66, 66] ++ [75, 75]) :=
  combineChunks_decodes_to_concat.1 "QQ==" "QkI=" "S0s=" [65] [66, 66] [75, 75]
    (by decide) (by decide) (by decide)

/-! ## Segment data model -/

/-- The `audio_base64` field of a segment record as delivered by the
upstream pipeline: missing, a single string, an ordered list of chunk
strings, or a value of some unexpected type (whose Python truthiness is
recorded, since `if seg.get("audio_base64")` branches on it). -/
inductive AudioField
  | absent
  | str (s : String)
  | chunks (cs : List String)
  | other (truthy : Bool)
deriving DecidableEq, Repr

/-- One segment record reported by one side of the upstream response.
Field access in the source goes through `dict.get`, so every field is
optional; `audio_base64` may be a string or a chunk list. -/
structure SegmentRecord where
  segment_id : Option Int := none
  audio_base64 : AudioField := .absent
  narration : Option String := none
  image_url : Option String := none
  duration : Option Int := none
deriving DecidableEq, Repr

/-- Python truthiness of an `audio_base64` value (`if not audio_base64`
and `if seg.get("audio_base64")`): `None`, `""` and `[]` are falsy. -/
def audioFieldTruthy : AudioField → Bool
  | .absent => false
  | .str s => s != ""
  | .chunks cs => !cs.isEmpty
  | .other t => t

/-- The `has_audio_base64` helper of `generate_lesson`: the first five
records are sampled for a truthy `audio_base64` field. -/
def has_audio_base64 (segments : List SegmentRecord) : Bool :=
  (segments.take 5).any (fun seg => audioFieldTruthy seg.audio_base64)

/-- Role detection (STEP 2 of `generate_lesson`): which result slot is
treated as the audio slot. `none` models the "neither result contains
audio_base64" 500 error; when both qualify the first slot wins with a
logged warning. -/
def detectAudioIndex (segments0 segments1 : List SegmentRecord) : Option Nat :=
  let r0 := has_audio_base64 segments0
  let r1 := has_audio_base64 segments1
  if r0 && !r1 then some 0
  else if r1 && !r0 then some 1
  else if r0 && r1 then some 0
  else none

/-- Value stored in the audio-side map for one segment identifier. -/
structure AudioEntry where
  audio_base64 : String
  audio_length : Nat
deriving DecidableEq, Repr

/-- Value stored in the content-side map for one segment identifier. -/
structure ContentEntry where
  narration : String
  image_url : Option String
  duration : Option Int
deriving DecidableEq, Repr

/-- Errors of the merge phase: `invalidBase64` models the uncaught
`binascii.Error` escalating to the generic 500 handler, and
`noValidSegments` the explicit "No valid segments could be created from
API response" 500 response. -/
inductive MergeError
  | invalidBase64
  | noValidSegments
deriving DecidableEq, Repr

/-- Processing of one audio-side record (STEP 3 loop body): records
without `segment_id` or with a falsy `audio_base64` are skipped with a
warning; a scalar string is kept verbatim (only its length is taken); a
chunk list is decoded, concatenated and re-encoded and a decode failure
raises; other types are skipped with a warning. -/
def audioRecordEntry (seg : SegmentRecord) : Except MergeError (Option (Int × AudioEntry)) :=
  match seg.segment_id with
  | none => .ok none
  | some sid =>
    if audioFieldTruthy seg.audio_base64 then
      match seg.audio_base64 with
      | .str s => .ok (some (sid, ⟨s, s.length⟩))
      | .chunks cs =>
        match combineChunks cs with
        | some s => .ok (some (sid, ⟨s, s.length⟩))
        | none => .error .invalidBase64
      | _ => .ok none
    else .ok none

/-- The audio-side map (`audio_segments_map`), as the insertion-ordered
association list of the entries produced by the STEP 3 loop. -/
def buildAudioMap : List SegmentRecord → Except MergeError (List (Int × AudioEntry))
  | [] => .ok []
  | seg :: rest =>
    match audioRecordEntry seg with
    | .error e => .error e
    | .ok none => buildAudioMap rest
    | .ok (some p) => (buildAudioMap rest).map (fun m => p :: m)

/-- Processing of one content-side record (STEP 4 loop body): records
without `segment_id` are skipped; `narration` defaults to the empty
string, `image_url` and `duration` to `None`. -/
def contentRecordEntry (seg : SegmentRecord) : Option (Int × ContentEntry) :=
  match seg.segment_id with
  | none => none
  | some sid => some (sid, ⟨seg.narration.getD "", seg.image_url, seg.duration⟩)

/-- The content-side map (`content_segments_map`). -/
def buildContentMap (segs : List SegmentRecord) : List (Int × ContentEntry) :=
  segs.filterMap contentRecordEntry

/-- Lookup in a Python dict modelled as an insertion-ordered association
list: the last binding of a key wins. -/
def dictGet {α : Type} (m : List (Int × α)) (k : Int) : Option α :=
  ((m.filter (fun p => p.1 == k)).getLast?).map (fun p => p.2)

/-- One output segment of the lesson response. -/
structure CombinedSegment where
  segment_id : Int
  audioBase64 : String
  imageUrl : Option String
  narration : String
  duration : Option Int
deriving DecidableEq, Repr

/-- Insertion into a strictly ascending list, dropping duplicates. -/
def insertSortedUnique (x : Int) : List Int → List Int
  | [] => [x]
  | y :: ys =>
    if x < y then x :: y :: ys
    else if x = y then y :: ys
    else y :: insertSortedUnique x ys

/-- The strictly ascending enumeration of the distinct members of a
list, i.e. Python's `sorted(set(l))`. -/
def sortedUnique (l : List Int) : List Int := l.foldr insertSortedUnique []

/-- The identifier iteration order of STEP 5:
`sorted(set(audio_segment_ids + content_segment_ids))`. -/
def segIdsSorted (audioKeys contentKeys : List Int) : List Int :=
  sortedUnique (audioKeys ++ contentKeys)

/-- STEP 5 loop body for one identifier: skip (with a logged reason) when
either map lacks the identifier, otherwise combine the two entries. -/
def combineAt (amap : List (Int × AudioEntry)) (cmap : List (Int × ContentEntry))
    (sid : Int) : Option CombinedSegment :=
  match dictGet amap sid, dictGet cmap sid with
  | some a, some c => some ⟨sid, a.audio_base64, c.image_url, c.narration, c.duration⟩
  | _, _ => none

/-- Stable insertion used to model `combined_segments.sort(key=...)`. -/
def insertBySegmentId (x : CombinedSegment) : List CombinedSegment → List CombinedSegment
  | [] => [x]
  | y :: ys =>
    if x.segment_id ≤ y.segment_id then x :: y :: ys else y :: insertBySegmentId x ys

/-- Python's stable `list.sort(key=lambda x: x["segment_id"])`. -/
def sortBySegmentId (l : List CombinedSegment) : List CombinedSegment :=
  l.foldr insertBySegmentId []

/-- STEP 5 of `generate_lesson` plus the final validation, given the two
built maps: iterate the sorted union of identifiers, combine matching
pairs, sort by `segment_id`, drop segments whose `audioBase64` is empty,
and fail when nothing valid remains. -/
def mergeFromMaps (amap : List (Int × AudioEntry)) (cmap : List (Int × ContentEntry)) :
    Except MergeError (List CombinedSegment) :=
  let ids := segIdsSorted (amap.map (fun p => p.1)) (cmap.map (fun p => p.1))
  let combined := ids.filterMap (combineAt amap cmap)
  let sortedCombined := sortBySegmentId combined
  let valid := sortedCombined.filter (fun s => s.audioBase64 != "")
  if valid.isEmpty then .error .noValidSegments else .ok valid

/-- STEPs 3-5 of `generate_lesson`: build both maps (a chunk decode
failure raises), then merge. -/
def mergeSegments (audioSegs contentSegs : List SegmentRecord) :
    Except MergeError (List CombinedSegment) :=
  match buildAudioMap audioSegs with
  | .error e => .error e
  | .ok amap => mergeFromMaps amap (buildContentMap contentSegs)

/-! ## Per-slot extraction and the lesson pipeline core -/

/-- The `segments` member of a parsed result slot: missing, present with a
non-list value, or a list of records. -/
inductive SegmentsField
  | absent
  | notAList
  | list (segs : List SegmentRecord)
deriving DecidableEq, Repr

/-- A parsed `result[i].output` value as consumed by `generate_lesson`. -/
structure ParsedOutput where
  topic : Option String := none
  segments : SegmentsField := .absent
deriving DecidableEq, Repr

/-- Errors of the per-slot segments validation loop. -/
inductive ExtractError
  | segmentsNotList
  | segmentsEmpty
deriving DecidableEq, Repr

/-- Per-slot segment extraction: `parsed.get("segments", [])` followed by
the validation loop. A missing `segments` member falls back to the
default `[]`, which is a list, so it fails the emptiness check (not the
list-type check); a present non-list value fails the type check; an
empty list is rejected. -/
def extractSegments (p : ParsedOutput) : Except ExtractError (List SegmentRecord) :=
  match p.segments with
  | .notAList => .error .segmentsNotList
  | .absent => .error .segmentsEmpty
  | .list l => if l.isEmpty then .error .segmentsEmpty else .ok l

/-- Failure kinds of the lesson pipeline after upstream parsing, each
answered with a 500 JSON error body by the handler. -/
inductive LessonError
  | segmentsNotList (slot : Nat)
  | segmentsEmpty (slot : Nat)
  | noAudioFound
  | invalidBase64
  | noValidSegments
deriving DecidableEq, Repr

/-- The final lesson payload. -/
structure LessonResponse where
  topic : String
  segments : List CombinedSegment
deriving DecidableEq, Repr

/-- Python `a or b` for an optional string `a`: an empty (falsy) or
missing topic falls through to the next candidate. -/
def truthyOrElse (x : Option String) (y : String) : String :=
  match x with
  | none => y
  | some s => if s == "" then y else s

/-- The post-parse core of `generate_lesson`: validate both slots'
segments, detect the audio slot, merge, and pick the topic from the
audio-side output, then the content-side output, then the user input. -/
def generateLessonCore (p0 p1 : ParsedOutput) (userInput : String) :
    Except LessonError LessonResponse :=
  match extractSegments p0 with
  | .error .segmentsNotList => .error (.segmentsNotList 0)
  | .error .segmentsEmpty => .error (.segmentsEmpty 0)
  | .ok segs0 =>
    match extractSegments p1 with
    | .error .segmentsNotList => .error (.segmentsNotList 1)
    | .error .segmentsEmpty => .error (.segmentsEmpty 1)
    | .ok segs1 =>
      match detectAudioIndex segs0 segs1 with
      | none => .error .noAudioFound
      | some i =>
        let audioSegs := if i = 0 then segs0 else segs1
        let contentSegs := if i = 0 then segs1 else segs0
        let audioParsed := if i = 0 then p0 else p1
        let contentParsed := if i = 0 then p1 else p0
        match mergeSegments audioSegs contentSegs with
        | .error .invalidBase64 => .error .invalidBase64
        | .error .noValidSegments => .error .noValidSegments
        | .ok valid =>
          .ok ⟨truthyOrElse audioParsed.topic (truthyOrElse contentParsed.topic userInput),
            valid⟩

/-! ## Quiz formatting -/

/-- One entry of the upstream `quiz` array, with the `dict.get` defaults
of `generate_quiz` already applied. -/
structure QuizEntry where
  question : String := ""
  options : List String := []
  correct_answer : String := ""
deriving DecidableEq, Repr

/-- One question of the response payload. -/
structure QuizQuestion where
  id : Nat
  question : String
  options : List String
  correctAnswer : Nat
deriving DecidableEq, Repr

/-- Python `str.lower()` restricted to its ASCII behaviour. -/
def pyLower (s : String) : String := ⟨s.data.map Char.toLower⟩

/-- Python's whitespace set for `str.strip()` (ASCII part: space, tab,
newline, carriage return, vertical tab, form feed). -/
def isPySpace (c : Char) : Bool :=
  c.toNat = 32 || c.toNat = 9 || c.toNat = 10 || c.toNat = 13 ||
    c.toNat = 11 || c.toNat = 12

/-- Python `str.strip()`: drop leading and trailing whitespace. -/
def pyStrip (s : String) : String :=
  ⟨((s.data.dropWhile isPySpace).reverse.dropWhile isPySpace).reverse⟩

/-- Resolution of the correct answer's index: exact match via
`options.index(...)`, then the first case-insensitive trimmed match
(`opt.lower().strip() == correct_answer.lower().strip()`). -/
def resolveAnswer (options : List String) (correct : String) : Option Nat :=
  match options.indexOf? correct with
  | some i => some i
  | none =>
    options.findIdx? (fun opt => pyStrip (pyLower opt) == pyStrip (pyLower correct))

/-- The formatting loop of `generate_quiz`: enumerate the quiz array,
drop entries whose correct answer cannot be resolved, and emit
`idx + 1` as the id, where `idx` is the entry's position in the
original array. -/
def formatQuestions (quiz : List QuizEntry) : List QuizQuestion :=
  quiz.enum.filterMap (fun p =>
    (resolveAnswer p.2.options p.2.correct_answer).map (fun i =>
      ⟨p.1 + 1, p.2.question, p.2.options, i⟩))

/-! ## Support lemmas: sorted unique identifier enumeration -/

theorem mem_insertSortedUnique {x y : Int} {l : List Int} :
    x ∈ insertSortedUnique y l ↔ x = y ∨ x ∈ l := by
  induction l with
  | nil => simp [insertSortedUnique]
  | cons z zs ih =>
    unfold insertSortedUnique
    split_ifs with h1 h2
    · simp
    · subst h2
      simp [or_comm, or_assoc]
    · simp only [List.mem_cons, ih]
      tauto

theorem mem_sortedUnique {x : Int} {l : List Int} :
    x ∈ sortedUnique l ↔ x ∈ l := by
  induction l with
  | nil => simp [sortedUnique]
  | cons z zs ih =>
    show x ∈ insertSortedUnique z (sortedUnique zs) ↔ _
    rw [mem_insertSortedUnique, ih]
    simp

theorem pairwise_insertSortedUnique {x : Int} {l : List Int}
    (h : l.Pairwise (· < ·)) : (insertSortedUnique x l).Pairwise (· < ·) := by
  induction l with
  | nil => simp [insertSortedUnique]
  | cons z zs ih =>
    rw [List.pairwise_cons] at h
    unfold insertSortedUnique
    split_ifs with h1 h2
    · exact List.pairwise_cons.mpr ⟨fun y hy => by
        rcases List.mem_cons.mp hy with rfl | hy
        · exact h1
        · exact lt_trans h1 (h.1 y hy), List.pairwise_cons.mpr h⟩
    · exact List.pairwise_cons.mpr h
    · refine List.pairwise_cons.mpr ⟨fun y hy => ?_, ih h.2⟩
      rcases mem_insertSortedUnique.mp hy with rfl | hy
      · omega
      · exact h.1 y hy

theorem pairwise_sortedUnique (l : List Int) :
    (sortedUnique l).Pairwise (· < ·) := by
  induction l with
  | nil => simp [sortedUnique]
  | cons z zs ih => exact pairwise_insertSortedUnique ih

theorem sortedUnique_eq_of_mem_iff {l l' : List Int}
    (h : ∀ x, x ∈ l ↔ x ∈ l') : sortedUnique l = sortedUnique l' := by
  have hmem : ∀ x, x ∈ sortedUnique l ↔ x ∈ sortedUnique l' := by
    intro x
    rw [mem_sortedUnique, mem_sortedUnique]
    exact h x
  have h1 := pairwise_sortedUnique l
  have h2 := pairwise_sortedUnique l'
  have hperm : List.Perm (sortedUnique l) (sortedUnique l') :=
    (List.perm_ext_iff_of_nodup h1.nodup h2.nodup).mpr hmem
  exact List.eq_of_perm_of_sorted hperm (h1.imp le_of_lt) (h2.imp le_of_lt)

/-! ## Support lemmas: dict lookup -/

theorem getLast?_mem {α : Type} {l : List α} {a : α} (h : l.getLast? = some a) :
    a ∈ l := by
  obtain ⟨l', rfl⟩ := List.getLast?_eq_some_iff.mp h
  simp

theorem dictGet_isSome_iff_mem {α : Type} {m : List (Int × α)} {k : Int} :
    (dictGet m k).isSome ↔ k ∈ m.map Prod.fst := by
  unfold dictGet
  cases hl : (m.filter (fun p => p.1 == k)).getLast? with
  | none =>
    rw [List.getLast?_eq_none_iff] at hl
    simp only [Option.map_none', Option.isSome_none, Bool.false_eq_true, false_iff]
    intro hk
    obtain ⟨p, hp, he⟩ := List.mem_map.mp hk
    have : p ∈ m.filter (fun q => q.1 == k) :=
      List.mem_filter.mpr ⟨hp, by simpa using he⟩
    rw [hl] at this
    cases this
  | some p =>
    have hpmem := List.mem_filter.mp (getLast?_mem hl)
    simp only [Option.map_some', Option.isSome_some, true_iff]
    exact List.mem_map.mpr ⟨p, hpmem.1, by simpa using hpmem.2⟩

theorem dictGet_mem {α : Type} {m : List (Int × α)} {k : Int} {v : α}
    (h : dictGet m k = some v) : (k, v) ∈ m := by
  unfold dictGet at h
  cases hl : (m.filter (fun p => p.1 == k)).getLast? with
  | none => rw [hl] at h; cases h
  | some p =>
    rw [hl] at h
    simp only [Option.map_some', Option.some.injEq] at h
    have hpmem := List.mem_filter.mp (getLast?_mem hl)
    have hk : p.1 = k := by simpa using hpmem.2
    have hpe : p = (k, v) := by
      cases p
      simp only at hk h
      rw [hk, h]
    rw [← hpe]
    exact hpmem.1

theorem dictGet_append_last {α : Type} (m : List (Int × α)) (k : Int) (v : α) :
    dictGet (m ++ [(k, v)]) k = some v := by
  unfold dictGet
  rw [List.filter_append]
  have hf : List.filter (fun p => p.1 == k) [(k, v)] = [(k, v)] := by simp
  rw [hf, List.getLast?_append_of_ne_nil _ (by simp)]
  simp

theorem length_filter_le_one_of_nodup_keys {α : Type} (m : List (Int × α)) (k : Int)
    (hnd : (m.map Prod.fst).Nodup) :
    (m.filter (fun p => p.1 == k)).length ≤ 1 := by
  induction m with
  | nil => simp
  | cons p rest ih =>
    rw [List.map_cons, List.nodup_cons] at hnd
    by_cases hk : p.1 = k
    · have : List.filter (fun p => p.1 == k) rest = [] := by
        rw [List.filter_eq_nil_iff]
        intro q hq
        simp only [beq_iff_eq]
        intro hqk
        exact hnd.1 (List.mem_map.mpr ⟨q, hq, by omega⟩)
      simp [List.filter_cons, hk, this]
    · simpa [List.filter_cons, hk] using ih hnd.2

theorem eq_of_perm_of_length_le_one {α : Type} {l l' : List α}
    (h : List.Perm l l') (hl : l.length ≤ 1) : l = l' := by
  cases l with
  | nil => exact (h.symm.eq_nil).symm
  | cons a t =>
    cases t with
    | nil => exact List.singleton_perm.mp h
    | cons b t2 => simp at hl

theorem dictGet_perm {α : Type} {m m' : List (Int × α)} (hp : List.Perm m m')
    (hnd : (m.map Prod.fst).Nodup) (k : Int) : dictGet m k = dictGet m' k := by
  have hfp : List.Perm (m.filter (fun p => p.1 == k)) (m'.filter (fun p => p.1 == k)) :=
    hp.filter _
  have hlen := length_filter_le_one_of_nodup_keys m k hnd
  unfold dictGet
  rw [eq_of_perm_of_length_le_one hfp hlen]

/-! ## Support lemmas: the audio and content maps -/

/-- The entry contributed by one audio-side record when it does not raise. -/
def audioRecordOkEntry (seg : SegmentRecord) : Option (Int × AudioEntry) :=
  match audioRecordEntry seg with
  | .ok o => o
  | .error _ => none

theorem audioRecordEntry_error_eq {seg : SegmentRecord} {e : MergeError}
    (h : audioRecordEntry seg = .error e) : e = .invalidBase64 := by
  obtain ⟨sid?, af, nar, img, dur⟩ := seg
  cases sid? with
  | none => exact Except.noConfusion h
  | some sid =>
    cases af with
    | absent => simp [audioRecordEntry, audioFieldTruthy] at h
    | str s => by_cases hs0 : s = "" <;>
        simp [audioRecordEntry, audioFieldTruthy, hs0] at h
    | chunks cs =>
      cases cs with
      | nil => simp [audioRecordEntry, audioFieldTruthy] at h
      | cons hd tl =>
        cases hc : combineChunks (hd :: tl) with
        | some s => simp [audioRecordEntry, audioFieldTruthy, hc] at h
        | none =>
          simp [audioRecordEntry, audioFieldTruthy, hc] at h
          exact h.symm
    | other t => cases t <;> simp [audioRecordEntry, audioFieldTruthy] at h

theorem audioRecordOkEntry_fst {seg : SegmentRecord} {p : Int × AudioEntry}
    (h : audioRecordOkEntry seg = some p) : seg.segment_id = some p.1 := by
  obtain ⟨sid?, af, nar, img, dur⟩ := seg
  cases sid? with
  | none => exact Option.noConfusion h
  | some sid =>
    cases af with
    | absent => simp [audioRecordOkEntry, audioRecordEntry, audioFieldTruthy] at h
    | str s =>
      by_cases hs0 : s = "" <;>
        simp [audioRecordOkEntry, audioRecordEntry, audioFieldTruthy, hs0] at h ⊢
      rw [← h]
    | chunks cs =>
      cases cs with
      | nil => simp [audioRecordOkEntry, audioRecordEntry, audioFieldTruthy] at h
      | cons hd tl =>
        cases hc : combineChunks (hd :: tl) with
        | some s =>
          simp [audioRecordOkEntry, audioRecordEntry, audioFieldTruthy, hc] at h ⊢
          rw [← h]
        | none =>
          simp [audioRecordOkEntry, audioRecordEntry, audioFieldTruthy, hc] at h
    | other t =>
      cases t <;> simp [audioRecordOkEntry, audioRecordEntry, audioFieldTruthy] at h

theorem buildAudioMap_error {l : List SegmentRecord} {seg : SegmentRecord} {e : MergeError}
    (hmem : seg ∈ l) (h : audioRecordEntry seg = .error e) :
    buildAudioMap l = .error .invalidBase64 := by
  induction l with
  | nil => cases hmem
  | cons a t ih =>
    unfold buildAudioMap
    rcases List.mem_cons.mp hmem with rfl | hmem
    · rw [h, audioRecordEntry_error_eq h]
    · cases ha : audioRecordEntry a with
      | error e2 =>
        have he2 := audioRecordEntry_error_eq ha
        subst he2
        rfl
      | ok o =>
        cases o with
        | none => exact ih hmem
        | some p => rw [ih hmem]; rfl

theorem buildAudioMap_ok {l : List SegmentRecord}
    (h : ∀ x ∈ l, ∀ e, audioRecordEntry x ≠ .error e) :
    buildAudioMap l = .ok (l.filterMap audioRecordOkEntry) := by
  induction l with
  | nil => rfl
  | cons a t ih =>
    have ht : ∀ x ∈ t, ∀ e, audioRecordEntry x ≠ .error e :=
      fun x hx => h x (List.mem_cons_of_mem a hx)
    unfold buildAudioMap
    cases ha : audioRecordEntry a with
    | error e => exact absurd ha (h a (List.mem_cons_self a t) e)
    | ok o =>
      have haOk : audioRecordOkEntry a = o := by
        unfold audioRecordOkEntry
        rw [ha]
      cases o with
      | none => rw [ih ht, List.filterMap_cons_none haOk]
      | some p => rw [ih ht, List.filterMap_cons_some haOk]; rfl

theorem audioMapKeys_sublist (l : List SegmentRecord) :
    List.Sublist ((l.filterMap audioRecordOkEntry).map Prod.fst)
      (l.filterMap SegmentRecord.segment_id) := by
  induction l with
  | nil => simp
  | cons a t ih =>
    cases ho : audioRecordOkEntry a with
    | none =>
      rw [List.filterMap_cons_none ho]
      cases hs : a.segment_id with
      | none => rw [List.filterMap_cons_none hs]; exact ih
      | some sid =>
        rw [List.filterMap_cons_some hs]
        exact ih.cons sid
    | some p =>
      have hs := audioRecordOkEntry_fst ho
      rw [List.filterMap_cons_some ho, List.filterMap_cons_some hs, List.map_cons]
      exact ih.cons₂ p.1

theorem contentMapKeys_eq (l : List SegmentRecord) :
    (buildContentMap l).map Prod.fst = l.filterMap SegmentRecord.segment_id := by
  induction l with
  | nil => rfl
  | cons a t ih =>
    unfold buildContentMap at ih ⊢
    cases hs : a.segment_id with
    | none =>
      have hc : contentRecordEntry a = none := by
        unfold contentRecordEntry
        rw [hs]
      rw [List.filterMap_cons_none hc, List.filterMap_cons_none hs, ih]
    | some sid =>
      have hc : contentRecordEntry a =
          some (sid, ⟨a.narration.getD "", a.image_url, a.duration⟩) := by
        unfold contentRecordEntry
        rw [hs]
      rw [List.filterMap_cons_some hc, List.filterMap_cons_some hs, List.map_cons, ih]

/-! ## Support lemmas: combining and sorting -/

theorem combineAt_eq_some_iff {amap : List (Int × AudioEntry)}
    {cmap : List (Int × ContentEntry)} {sid : Int} {seg : CombinedSegment} :
    combineAt amap cmap sid = some seg ↔
      ∃ a c, dictGet amap sid = some a ∧ dictGet cmap sid = some c ∧
        seg = ⟨sid, a.audio_base64, c.image_url, c.narration, c.duration⟩ := by
  unfold combineAt
  cases dictGet amap sid <;> cases dictGet cmap sid <;> simp [eq_comm]

theorem combineAt_id {amap : List (Int × AudioEntry)} {cmap : List (Int × ContentEntry)}
    {sid : Int} {seg : CombinedSegment} (h : combineAt amap cmap sid = some seg) :
    seg.segment_id = sid := by
  obtain ⟨a, c, _, _, rfl⟩ := combineAt_eq_some_iff.mp h
  rfl

theorem sortBySegmentId_eq_of_sorted {l : List CombinedSegment}
    (h : l.Pairwise (fun a b => a.segment_id ≤ b.segment_id)) : sortBySegmentId l = l := by
  induction l with
  | nil => rfl
  | cons a t ih =>
    rw [List.pairwise_cons] at h
    show insertBySegmentId a (sortBySegmentId t) = a :: t
    rw [ih h.2]
    cases t with
    | nil => rfl
    | cons b t2 =>
      unfold insertBySegmentId
      rw [if_pos (h.1 b (List.mem_cons_self b t2))]

theorem mergeFromMaps_congr {amap amap' : List (Int × AudioEntry)}
    {cmap cmap' : List (Int × ContentEntry)}
    (hpa : List.Perm amap' amap) (hnda : (amap.map Prod.fst).Nodup)
    (hpc : List.Perm cmap' cmap) (hndc : (cmap.map Prod.fst).Nodup) :
    mergeFromMaps amap' cmap' = mergeFromMaps amap cmap := by
  have hnda' : (amap'.map Prod.fst).Nodup := ((hpa.map Prod.fst).nodup_iff).mpr hnda
  have hndc' : (cmap'.map Prod.fst).Nodup := ((hpc.map Prod.fst).nodup_iff).mpr hndc
  have hfun : combineAt amap' cmap' = combineAt amap cmap := by
    funext sid
    unfold combineAt
    rw [dictGet_perm hpa hnda' sid, dictGet_perm hpc hndc' sid]
  have hids : segIdsSorted (amap'.map (fun p => p.1)) (cmap'.map (fun p => p.1)) =
      segIdsSorted (amap.map (fun p => p.1)) (cmap.map (fun p => p.1)) := by
    apply sortedUnique_eq_of_mem_iff
    intro x
    simp only [List.mem_append]
    constructor
    · rintro (hx | hx)
      · exact Or.inl ((hpa.map (fun p => p.1)).mem_iff.mp hx)
      · exact Or.inr ((hpc.map (fun p => p.1)).mem_iff.mp hx)
    · rintro (hx | hx)
      · exact Or.inl ((hpa.map (fun p => p.1)).mem_iff.mpr hx)
      · exact Or.inr ((hpc.map (fun p => p.1)).mem_iff.mpr hx)
  unfold mergeFromMaps
  rw [hids, hfun]

theorem mergeSegments_perm {A A' C C' : List SegmentRecord}
    (hA : List.Perm A A') (hC : List.Perm C C')
    (hAnd : (A.filterMap SegmentRecord.segment_id).Nodup)
    (hCnd : (C.filterMap SegmentRecord.segment_id).Nodup) :
    mergeSegments A' C' = mergeSegments A C := by
  by_cases herr : ∀ x ∈ A, ∀ e, audioRecordEntry x ≠ .error e
  · have herr' : ∀ x ∈ A', ∀ e, audioRecordEntry x ≠ .error e :=
      fun x hx => herr x (hA.mem_iff.mpr hx)
    have h1 := buildAudioMap_ok herr
    have h2 := buildAudioMap_ok herr'
    unfold mergeSegments
    rw [h1, h2]
    show mergeFromMaps (A'.filterMap audioRecordOkEntry) (buildContentMap C') =
      mergeFromMaps (A.filterMap audioRecordOkEntry) (buildContentMap C)
    apply mergeFromMaps_congr
    · exact (hA.filterMap audioRecordOkEntry).symm
    · exact List.Nodup.sublist (audioMapKeys_sublist A) hAnd
    · exact (hC.filterMap contentRecordEntry).symm
    · rw [contentMapKeys_eq]
      exact hCnd
  · push_neg at herr
    obtain ⟨x, hx, e, he⟩ := herr
    have h1 := buildAudioMap_error hx he
    have h2 := buildAudioMap_error (hA.mem_iff.mp hx) he
    unfold mergeSegments
    rw [h1, h2]

theorem mapM_option_eq_none {α β : Type} {f : α → Option β} {l : List α} {x : α}
    (hx : x ∈ l) (h : f x = none) : l.mapM f = none := by
  induction l with
  | nil => cases hx
  | cons a t ih =>
    rw [List.mapM_cons]
    rcases List.mem_cons.mp hx with rfl | hx
    · rw [h]
      rfl
    · cases hfa : f a with
      | none => rfl
      | some b =>
        show (t.mapM f >>= fun ys => pure (b :: ys)) = none
        rw [ih hx]
        rfl

theorem buildAudioMap_append (xs ys : List SegmentRecord) :
    buildAudioMap (xs ++ ys) =
      match buildAudioMap xs with
      | .error e => .error e
      | .ok m1 => (buildAudioMap ys).map (fun m2 => m1 ++ m2) := by
  induction xs with
  | nil =>
    show buildAudioMap ys = (buildAudioMap ys).map (fun m2 => [] ++ m2)
    cases buildAudioMap ys <;> rfl
  | cons a t ih =>
    have hcons : ∀ rest : List SegmentRecord, buildAudioMap (a :: rest) =
        match audioRecordEntry a with
        | .error e => .error e
        | .ok none => buildAudioMap rest
        | .ok (some p) => (buildAudioMap rest).map (fun m => p :: m) := fun rest => rfl
    rw [List.cons_append, hcons, hcons]
    cases ha : audioRecordEntry a with
    | error e => rfl
    | ok o =>
      cases o with
      | none => exact ih
      | some p =>
        rw [ih]
        cases buildAudioMap t with
        | error e => rfl
        | ok m1 =>
          cases hys : buildAudioMap ys with
          | error e => rfl
          | ok m2 => simp [Except.map]

theorem fst_ge_of_mem_enumFrom {α : Type} {n : Nat} {l : List α} {p : Nat × α}
    (hp : p ∈ List.enumFrom n l) : n ≤ p.1 := by
  induction l generalizing n with
  | nil => cases hp
  | cons a t ih =>
    rw [List.enumFrom_cons] at hp
    rcases List.mem_cons.mp hp with rfl | hp
    · exact le_refl n
    · exact le_trans (Nat.le_succ n) (ih hp)

theorem pairwise_fst_lt_enumFrom {α : Type} (n : Nat) (l : List α) :
    (List.enumFrom n l).Pairwise (fun p q => p.1 < q.1) := by
  induction l generalizing n with
  | nil => simp
  | cons a t ih =>
    rw [List.enumFrom_cons, List.pairwise_cons]
    exact ⟨fun p hp => lt_of_lt_of_le (Nat.lt_succ_self n) (fst_ge_of_mem_enumFrom hp),
      ih (n + 1)⟩

theorem mergeSegments_ok_pairwise {A C : List SegmentRecord} {out : List CombinedSegment}
    (h : mergeSegments A C = .ok out) :
    out.Pairwise (fun a b => a.segment_id ≤ b.segment_id) := by
  unfold mergeSegments at h
  cases hb : buildAudioMap A with
  | error e => rw [hb] at h; exact Except.noConfusion h
  | ok amap =>
    rw [hb] at h
    simp only [mergeFromMaps] at h
    have hcombPW : (List.filterMap (combineAt amap (buildContentMap C))
        (segIdsSorted (amap.map (fun p => p.1))
          ((buildContentMap C).map (fun p => p.1)))).Pairwise
        (fun a b => a.segment_id ≤ b.segment_id) := by
      refine List.Pairwise.filterMap _ ?_ (pairwise_sortedUnique _)
      intro s1 s2 hlt c1 hc1 c2 hc2
      rw [combineAt_id hc1, combineAt_id hc2]
      exact le_of_lt hlt
    rw [sortBySegmentId_eq_of_sorted hcombPW] at h
    split_ifs at h
    injection h with h
    rw [← h]
    exact List.Pairwise.sublist (List.filter_sublist _) hcombPW

/-! ## Claim theorems -/

/-- C3 (counterexample): when the audio list holds two records with the
same `segment_id`, permuting them changes which record's audio wins
(later records overwrite earlier ones in the map), so the merge output
differs; the claim fails for arbitrary segment lists. -/
theorem merge_input_order_cex :
    List.Perm
      [({ segment_id := some 1, audio_base64 := .str "QQ==" } : SegmentRecord),
        { segment_id := some 1, audio_base64 := .str "Ug==" }]
      [({ segment_id := some 1, audio_base64 := .str "Ug==" } : SegmentRecord),
        { segment_id := some 1, audio_base64 := .str "QQ==" }] ∧
    mergeSegments
        [{ segment_id := some 1, audio_base64 := .str "Ug==" },
          { segment_id := some 1, audio_base64 := .str "QQ==" }]
        [{ segment_id := some 1, narration := some "n" }] ≠
      mergeSegments
        [{ segment_id := some 1, audio_base64 := .str "QQ==" },
          { segment_id := some 1, audio_base64 := .str "Ug==" }]
        [{ segment_id := some 1, narration := some "n" }] := by
  constructor
  · decide
  · decide

/-- C3 (amended): provided the `segment_id` values within each input list
are distinct, permuting the records of either list yields the identical
merge result; and in all cases a successful merge output is ordered by
ascending `segment_id`. -/
theorem merge_input_order_invariant :
    (∀ A A' C C' : List SegmentRecord, List.Perm A A' → List.Perm C C' →
      (A.filterMap SegmentRecord.segment_id).Nodup →
      (C.filterMap SegmentRecord.segment_id).Nodup →
      mergeSegments A' C' = mergeSegments A C) ∧
    (∀ (A C : List SegmentRecord) (out : List CombinedSegment),
      mergeSegments A C = .ok out →
      out.Pairwise (fun a b => a.segment_id ≤ b.segment_id)) :=
  ⟨fun _ _ _ _ hA hC hAnd hCnd => mergeSegments_perm hA hC hAnd hCnd,
    fun _ _ _ h => mergeSegments_ok_pairwise h⟩

/-- Witness for `merge_input_order_invariant` at concrete lists. -/
theorem merge_input_order_invariant_witness :
    mergeSegments
        [{ segment_id := some 2, audio_base64 := .str "Ug==" },
          { segment_id := some 1, audio_base64 := .str "QQ==" }]
        [{ segment_id := some 1, narration := some "n" }] =
      mergeSegments
        [{ segment_id := some 1, audio_base64 := .str "QQ==" },
          { segment_id := some 2, audio_base64 := .str "Ug==" }]
        [{ segment_id := some 1, narration := some "n" }] ∧
    List.Pairwise (fun a b => a.segment_id ≤ b.segment_id)
      [({ segment_id := 1
          audioBase64 := "QQ=="
          imageUrl := none
          narration := "n"
          duration := none } : CombinedSegment)] :=
  ⟨merge_input_order_invariant.1 _ _ _ _ (by decide) (by decide) (by decide) (by decide),
    merge_input_order_invariant.2
      [{ segment_id := some 1, audio_base64 := .str "QQ==" },
        { segment_id := some 2, audio_base64 := .str "Ug==" }]
      [{ segment_id := some 1, narration := some "n" }] _ (by decide)⟩

/-- C5 (counterexample): a parsed output with no `segments` member is
reported as the empty-segments error (the `dict.get` default `[]` passes
the list-type check and fails the emptiness check), not as
`SegmentsNotList`. -/
theorem extract_absent_segments_cex :
    extractSegments { topic := none, segments := .absent } = .error .segmentsEmpty ∧
      ExtractError.segmentsEmpty ≠ ExtractError.segmentsNotList := by
  constructor
  · rfl
  · decide

/-- C5 (amended): a `segments` member that is present but not a list
yields `SegmentsNotList`; an absent member falls back to the default
empty list and is reported as `SegmentsEmpty`. -/
theorem extract_segments_kind_errors :
    (∀ t : Option String,
      extractSegments { topic := t, segments := .notAList } = .error .segmentsNotList) ∧
    (∀ t : Option String,
      extractSegments { topic := t, segments := .absent } = .error .segmentsEmpty) :=
  ⟨fun _ => rfl, fun _ => rfl⟩

/-- C6: an empty `segments` list is rejected with `SegmentsEmpty`, and
extraction never returns an empty successful sequence. -/
theorem extract_empty_segments_fatal :
    (∀ t : Option String,
      extractSegments { topic := t, segments := .list [] } = .error .segmentsEmpty) ∧
    (∀ (p : ParsedOutput) (l : List SegmentRecord),
      extractSegments p = .ok l → l ≠ []) := by
  constructor
  · intro t
    rfl
  · intro p l h
    obtain ⟨t, segs⟩ := p
    cases segs with
    | absent => exact Except.noConfusion h
    | notAList => exact Except.noConfusion h
    | list ls =>
      simp only [extractSegments] at h
      split_ifs at h with he
      injection h with h
      rw [← h]
      intro hnil
      rw [hnil] at he
      simp at he

/-- Witness for `extract_empty_segments_fatal` at a concrete input. -/
theorem extract_empty_segments_fatal_witness :
    ([({ segment_id := some 1 } : SegmentRecord)] : List SegmentRecord) ≠ [] :=
  extract_empty_segments_fatal.2
    { topic := none, segments := .list [{ segment_id := some 1 }] }
    [{ segment_id := some 1 }] rfl

/-- C7: when exactly one of the two lists qualifies as having audio
(some record among its first five has a truthy `audio_base64`), role
detection selects that list as the audio list in either argument
order. -/
theorem detect_role_position_independent :
    ∀ A B : List SegmentRecord, has_audio_base64 A = true → has_audio_base64 B = false →
      detectAudioIndex A B = some 0 ∧ detectAudioIndex B A = some 1 := by
  intro A B hA hB
  unfold detectAudioIndex
  rw [hA, hB]
  exact ⟨rfl, rfl⟩

/-- Witness for `detect_role_position_independent` at concrete lists. -/
theorem detect_role_position_independent_witness :
    detectAudioIndex [{ segment_id := some 1, audio_base64 := .str "QQ==" }]
        [({ segment_id := some 1 } : SegmentRecord)] = some 0 ∧
      detectAudioIndex [({ segment_id := some 1 } : SegmentRecord)]
        [{ segment_id := some 1, audio_base64 := .str "QQ==" }] = some 1 :=
  detect_role_position_independent _ _ (by decide) (by decide)

/-- C8 (counterexample): a scalar `audio_base64` string carrying a
data-URI prefix reaches the output `audioBase64` unchanged; it is
neither decoded nor stripped of the prefix. -/
theorem scalar_audio_prefix_cex :
    mergeSegments
        [{ segment_id := some 1, audio_base64 := .str "data:audio/mpeg;base64,QQ==" }]
        [{ segment_id := some 1, narration := some "n" }] =
      .ok [({ segment_id := 1
              audioBase64 := "data:audio/mpeg;base64,QQ=="
              imageUrl := none
              narration := "n"
              duration := none } : CombinedSegment)] ∧
      ("data:audio/mpeg;base64,QQ==" : String) ≠ "QQ==" := by
  constructor
  · decide
  · decide

/-- C8 (amended): a scalar `audio_base64` string is used verbatim - the
map entry stores the string itself (only its length is computed), and
the merged segment's `audioBase64` is that same string, with no decoding
and no data-URI stripping. -/
theorem scalar_audio_passthrough :
    (∀ (seg : SegmentRecord) (sid : Int) (s : String), seg.segment_id = some sid →
      seg.audio_base64 = .str s → s ≠ "" →
      audioRecordEntry seg = .ok (some (sid, ⟨s, s.length⟩))) ∧
    (∀ (sid : Int) (s : String) (n i : Option String) (d : Option Int), s ≠ "" →
      mergeSegments [{ segment_id := some sid, audio_base64 := .str s }]
          [{ segment_id := some sid, narration := n, image_url := i, duration := d }] =
        .ok [({ segment_id := sid
                audioBase64 := s
                imageUrl := i
                narration := n.getD ""
                duration := d } : CombinedSegment)]) := by
  have hrec : ∀ (seg : SegmentRecord) (sid : Int) (s : String), seg.segment_id = some sid →
      seg.audio_base64 = .str s → s ≠ "" →
      audioRecordEntry seg = .ok (some (sid, ⟨s, s.length⟩)) := by
    intro seg sid s hsid ha hs
    unfold audioRecordEntry
    rw [hsid, ha]
    simp [audioFieldTruthy, hs]
  refine ⟨hrec, ?_⟩
  intro sid s n i d hs
  have h1 : audioRecordEntry { segment_id := some sid, audio_base64 := .str s } =
      .ok (some (sid, ⟨s, s.length⟩)) := hrec _ sid s rfl rfl hs
  have hmap : buildAudioMap [{ segment_id := some sid, audio_base64 := .str s }] =
      .ok [(sid, ⟨s, s.length⟩)] := by
    unfold buildAudioMap
    rw [h1]
    rfl
  unfold mergeSegments
  rw [hmap]
  unfold mergeFromMaps buildContentMap segIdsSorted
  simp [contentRecordEntry, sortedUnique, insertSortedUnique, dictGet, combineAt,
    sortBySegmentId, insertBySegmentId, List.filter, hs]

/-- Witness for `scalar_audio_passthrough` at a concrete segment. -/
theorem scalar_audio_passthrough_witness :
    audioRecordEntry { segment_id := some 7, audio_base64 := .str "data:x,QQ==" } =
      .ok (some (7, ⟨"data:x,QQ==", 11⟩)) ∧
    mergeSegments [{ segment_id := some 7, audio_base64 := .str "data:x,QQ==" }]
        [{ segment_id := some 7, narration := some "hi", image_url := some "u",
           duration := some 3 }] =
      .ok [({ segment_id := 7
              audioBase64 := "data:x,QQ=="
              imageUrl := some "u"
              narration := "hi"
              duration := some 3 } : CombinedSegment)] := by
  constructor
  · exact scalar_audio_passthrough.1
      { segment_id := some 7, audio_base64 := .str "data:x,QQ==" } 7 "data:x,QQ=="
      rfl rfl (by decide)
  · have h := scalar_audio_passthrough.2 7 "data:x,QQ==" (some "hi") (some "u") (some 3)
      (by decide)
    exact h

/-- C9 (counterexample): with the middle quiz entry unresolvable, the
emitted ids are `[1, 3]` - keeping the original positions and leaving a
gap - not the contiguous `[1, 2]` the claim requires. -/
theorem quiz_ids_cex :
    (formatQuestions [{ question := "Q1", options := ["a", "b"], correct_answer := "a" },
        { question := "Q2", options := ["a", "b"], correct_answer := "zzz" },
        { question := "Q3", options := ["a", "b"], correct_answer := "b" }]).map
      (fun q => q.id) = [1, 3] ∧
      ([1, 3] : List Nat) ≠ [1, 2] := by
  constructor
  · decide
  · decide

/-- The formatting loop over an enumeration starting at any index: the
emitted ids are the original positions plus one of exactly the entries
whose correct answer resolves. -/
theorem formatQuestions_enumFrom_ids (l : List QuizEntry) :
    ∀ n : Nat,
      ((List.enumFrom n l).filterMap (fun p =>
          (resolveAnswer p.2.options p.2.correct_answer).map (fun i =>
            (⟨p.1 + 1, p.2.question, p.2.options, i⟩ : QuizQuestion)))).map (fun q => q.id) =
        ((List.enumFrom n l).filter (fun p =>
          (resolveAnswer p.2.options p.2.correct_answer).isSome)).map (fun p => p.1 + 1) := by
  induction l with
  | nil => intro n; rfl
  | cons q t ih =>
    intro n
    rw [List.enumFrom_cons]
    cases hr : resolveAnswer q.options q.correct_answer with
    | none => simp [List.filterMap_cons, List.filter_cons, hr, ih (n + 1)]
    | some i => simp [List.filterMap_cons, List.filter_cons, hr, ih (n + 1)]

/-- C9 (amended): each emitted quiz question carries the id
`original position + 1` of the entry it came from (dropped entries leave
gaps), and the ids are strictly increasing; they are contiguous from 1
only when no entry is dropped. -/
theorem quiz_ids_original_position :
    ∀ quiz : List QuizEntry,
      (formatQuestions quiz).map (fun q => q.id) =
        ((quiz.enum.filter (fun p =>
          (resolveAnswer p.2.options p.2.correct_answer).isSome)).map (fun p => p.1 + 1)) ∧
      ((formatQuestions quiz).map (fun q => q.id)).Pairwise (· < ·) := by
  intro quiz
  have hids : (formatQuestions quiz).map (fun q => q.id) =
      ((List.enumFrom 0 quiz).filter (fun p =>
        (resolveAnswer p.2.options p.2.correct_answer).isSome)).map (fun p => p.1 + 1) :=
    formatQuestions_enumFrom_ids quiz 0
  constructor
  · exact hids
  · rw [hids, List.pairwise_map]
    refine List.Pairwise.filter _ ?_
    refine List.Pairwise.imp ?_ (pairwise_fst_lt_enumFrom 0 quiz)
    intro p q h
    omega

/-- C10: when several records share a `segment_id`, the record appearing
later in the list wins in the id-keyed map - appending a record with an
identifier overrides any earlier binding of that identifier, for the
content-role map and the audio-role map alike - and duplication itself
raises no error. -/
theorem duplicate_ids_last_wins :
    (∀ (xs : List SegmentRecord) (r : SegmentRecord) (sid : Int),
      r.segment_id = some sid →
      dictGet (buildContentMap (xs ++ [r])) sid =
        some ⟨r.narration.getD "", r.image_url, r.duration⟩) ∧
    (∀ (xs : List SegmentRecord) (r : SegmentRecord) (sid : Int) (e : AudioEntry)
        (m : List (Int × AudioEntry)),
      audioRecordEntry r = .ok (some (sid, e)) →
      buildAudioMap (xs ++ [r]) = .ok m →
      dictGet m sid = some e) := by
  constructor
  · intro xs r sid hsid
    unfold buildContentMap
    rw [List.filterMap_append]
    have hr : List.filterMap contentRecordEntry [r] =
        [(sid, ⟨r.narration.getD "", r.image_url, r.duration⟩)] := by
      simp [contentRecordEntry, hsid]
    rw [hr]
    exact dictGet_append_last _ sid _
  · intro xs r sid e m hentry hok
    rw [buildAudioMap_append] at hok
    cases hxs : buildAudioMap xs with
    | error e2 => rw [hxs] at hok; exact Except.noConfusion hok
    | ok m1 =>
      rw [hxs] at hok
      have hr : buildAudioMap [r] = .ok [(sid, e)] := by
        unfold buildAudioMap
        rw [hentry]
        rfl
      rw [hr] at hok
      injection hok with hok
      rw [← hok]
      exact dictGet_append_last _ sid _

/-- Witness for `duplicate_ids_last_wins` at concrete duplicate lists. -/
theorem duplicate_ids_last_wins_witness :
    dictGet (buildContentMap
        [{ segment_id := some 1, narration := some "old" },
          { segment_id := some 1, narration := some "new" }]) 1 =
      some ⟨"new", none, none⟩ ∧
    dictGet [((1 : Int), ({ audio_base64 := "QQ==", audio_length := 4 } : AudioEntry)),
        (1, { audio_base64 := "Ug==", audio_length := 4 })] 1 =
      some { audio_base64 := "Ug==", audio_length := 4 } :=
  ⟨duplicate_ids_last_wins.1 [{ segment_id := some 1, narration := some "old" }]
      { segment_id := some 1, narration := some "new" } 1 rfl,
    duplicate_ids_last_wins.2 [{ segment_id := some 1, audio_base64 := .str "QQ==" }]
      { segment_id := some 1, audio_base64 := .str "Ug==" } 1
      { audio_base64 := "Ug==", audio_length := 4 }
      [(1, { audio_base64 := "QQ==", audio_length := 4 }),
        (1, { audio_base64 := "Ug==", audio_length := 4 })]
      (by decide) (by decide)⟩

/-- C1 (counterexample): a base64 decode failure on one chunk of segment
1 fails the whole lesson request with the escalated invalid-base64
error, even though segment 2 is perfectly valid; the request does not
succeed with that segment excluded. -/
theorem chunk_decode_failure_cex :
    generateLessonCore
        { topic := none
          segments := .list [{ segment_id := some 1, audio_base64 := .chunks ["QQ"] },
            { segment_id := some 2, audio_base64 := .str "QQ==" }] }
        { topic := none
          segments := .list [{ segment_id := some 1, narration := some "one" },
            { segment_id := some 2, narration := some "two" }] }
        "topic" = .error .invalidBase64 ∧
      ∀ r : LessonResponse,
        generateLessonCore
            { topic := none
              segments := .list [{ segment_id := some 1, audio_base64 := .chunks ["QQ"] },
                { segment_id := some 2, audio_base64 := .str "QQ==" }] }
            { topic := none
              segments := .list [{ segment_id := some 1, narration := some "one" },
                { segment_id := some 2, narration := some "two" }] }
            "topic" ≠ .ok r := by
  refine ⟨by decide, ?_⟩
  intro r h
  rw [show generateLessonCore
      { topic := none
        segments := .list [{ segment_id := some 1, audio_base64 := .chunks ["QQ"] },
          { segment_id := some 2, audio_base64 := .str "QQ==" }] }
      { topic := none
        segments := .list [{ segment_id := some 1, narration := some "one" },
          { segment_id := some 2, narration := some "two" }] }
      "topic" = .error .invalidBase64 from by decide] at h
  exact Except.noConfusion h

/-- C1 (amended): a decode failure on any chunk of any identified
audio-side record aborts the whole merge with the invalid-base64 error
(the uncaught exception escalates to a request-level 500), regardless of
how many other valid segments exist; the failing segment is not
individually excluded. -/
theorem chunk_decode_failure_fails_request :
    ∀ (A C : List SegmentRecord) (seg : SegmentRecord) (sid : Int)
      (cs : List String) (c : String),
      seg ∈ A → seg.segment_id = some sid → seg.audio_base64 = .chunks cs →
      c ∈ cs → pyB64Decode c = none →
      mergeSegments A C = .error .invalidBase64 := by
  intro A C seg sid cs c hmem hsid haf hc hdec
  have hcc : combineChunks cs = none := by
    unfold combineChunks
    rw [mapM_option_eq_none hc hdec]
    rfl
  have herr : audioRecordEntry seg = .error .invalidBase64 := by
    cases cs with
    | nil => cases hc
    | cons hd tl =>
      unfold audioRecordEntry
      rw [hsid, haf]
      simp [audioFieldTruthy, hcc]
  unfold mergeSegments
  rw [buildAudioMap_error hmem herr]

/-- Witness for `chunk_decode_failure_fails_request` at a concrete input. -/
theorem chunk_decode_failure_fails_request_witness :
    mergeSegments [{ segment_id := some 1, audio_base64 := .chunks ["QQ"] }]
        [{ segment_id := some 1, narration := some "n" }] = .error .invalidBase64 :=
  chunk_decode_failure_fails_request _ _
    { segment_id := some 1, audio_base64 := .chunks ["QQ"] } 1 ["QQ"] "QQ"
    (by decide) rfl rfl (by decide) (by decide)

/-- An audio-side record meeting the shape contract: it carries a
`segment_id` and audio that survives per-record processing with a
non-empty result. -/
def goodAudioRecord (seg : SegmentRecord) : Bool :=
  match audioRecordEntry seg with
  | .ok (some p) => p.2.audio_base64 != ""
  | _ => false

theorem goodAudioRecord_no_error {seg : SegmentRecord}
    (hg : goodAudioRecord seg = true) : ∀ e, audioRecordEntry seg ≠ .error e := by
  intro e he
  unfold goodAudioRecord at hg
  rw [he] at hg
  exact Bool.noConfusion hg

theorem goodAudioRecord_entry {seg : SegmentRecord}
    (hg : goodAudioRecord seg = true) :
    ∃ p, audioRecordOkEntry seg = some p ∧ p.2.audio_base64 ≠ "" ∧
      seg.segment_id = some p.1 := by
  unfold goodAudioRecord at hg
  cases he : audioRecordEntry seg with
  | error e => rw [he] at hg; exact Bool.noConfusion hg
  | ok o =>
    cases o with
    | none => rw [he] at hg; exact Bool.noConfusion hg
    | some p =>
      have hok : audioRecordOkEntry seg = some p := by
        unfold audioRecordOkEntry
        rw [he]
      refine ⟨p, hok, ?_, audioRecordOkEntry_fst hok⟩
      rw [he] at hg
      simpa using hg

theorem audioMapKeys_eq_of_good {l : List SegmentRecord}
    (h : ∀ x ∈ l, goodAudioRecord x = true) :
    (l.filterMap audioRecordOkEntry).map Prod.fst = l.filterMap SegmentRecord.segment_id := by
  induction l with
  | nil => rfl
  | cons a t ih =>
    obtain ⟨p, hp, _, hsid⟩ := goodAudioRecord_entry (h a (List.mem_cons_self a t))
    rw [List.filterMap_cons_some hp, List.filterMap_cons_some hsid, List.map_cons,
      ih (fun x hx => h x (List.mem_cons_of_mem a hx))]

theorem audioMapValues_good {l : List SegmentRecord}
    (h : ∀ x ∈ l, goodAudioRecord x = true) :
    ∀ p ∈ l.filterMap audioRecordOkEntry, p.2.audio_base64 ≠ "" := by
  intro p hp
  obtain ⟨x, hx, hfx⟩ := List.mem_filterMap.mp hp
  obtain ⟨q, hq, hne, _⟩ := goodAudioRecord_entry (h x hx)
  rw [hq] at hfx
  injection hfx with hfx
  rw [← hfx]
  exact hne

theorem combined_pairwise (amap : List (Int × AudioEntry))
    (cmap : List (Int × ContentEntry)) :
    (List.filterMap (combineAt amap cmap)
      (segIdsSorted (amap.map (fun p => p.1)) (cmap.map (fun p => p.1)))).Pairwise
      (fun a b => a.segment_id ≤ b.segment_id) := by
  refine List.Pairwise.filterMap _ ?_ (pairwise_sortedUnique _)
  intro s1 s2 hlt c1 hc1 c2 hc2
  rw [combineAt_id hc1, combineAt_id hc2]
  exact le_of_lt hlt

/-- C4: for audio-side records meeting the shape contract, the set of
identifiers in the merged output is exactly the intersection of the
identifiers present in the audio list and those present in the content
list; an identifier on only one side never reaches the output. -/
theorem merged_ids_intersection :
    ∀ (A C : List SegmentRecord) (out : List CombinedSegment),
      (∀ x ∈ A, goodAudioRecord x = true) →
      mergeSegments A C = .ok out →
      ∀ k : Int, k ∈ out.map (fun s => s.segment_id) ↔
        (k ∈ A.filterMap SegmentRecord.segment_id ∧
          k ∈ C.filterMap SegmentRecord.segment_id) := by
  intro A C out hA hok k
  have herr : ∀ x ∈ A, ∀ e, audioRecordEntry x ≠ .error e :=
    fun x hx => goodAudioRecord_no_error (hA x hx)
  unfold mergeSegments at hok
  rw [buildAudioMap_ok herr] at hok
  simp only [mergeFromMaps] at hok
  rw [sortBySegmentId_eq_of_sorted
    (combined_pairwise (A.filterMap audioRecordOkEntry) (buildContentMap C))] at hok
  have hfilter : (List.filterMap
        (combineAt (A.filterMap audioRecordOkEntry) (buildContentMap C))
        (segIdsSorted ((A.filterMap audioRecordOkEntry).map (fun p => p.1))
          ((buildContentMap C).map (fun p => p.1)))).filter
        (fun s => s.audioBase64 != "") =
      List.filterMap (combineAt (A.filterMap audioRecordOkEntry) (buildContentMap C))
        (segIdsSorted ((A.filterMap audioRecordOkEntry).map (fun p => p.1))
          ((buildContentMap C).map (fun p => p.1))) := by
    apply List.filter_eq_self.mpr
    intro seg hseg
    obtain ⟨sid, _, hcomb⟩ := List.mem_filterMap.mp hseg
    obtain ⟨a, c, hda, _, rfl⟩ := combineAt_eq_some_iff.mp hcomb
    have hmem : (sid, a) ∈ A.filterMap audioRecordOkEntry := dictGet_mem hda
    simpa using audioMapValues_good hA _ hmem
  rw [hfilter] at hok
  split_ifs at hok
  injection hok with hok
  rw [← hok]
  constructor
  · intro hk
    obtain ⟨seg, hseg, hks⟩ := List.mem_map.mp hk
    obtain ⟨sid, _, hcomb⟩ := List.mem_filterMap.mp hseg
    have hid := combineAt_id hcomb
    obtain ⟨a, c, hda, hdc, _⟩ := combineAt_eq_some_iff.mp hcomb
    have hksid : sid = k := by rw [← hks, hid]
    subst hksid
    constructor
    · have hmem : sid ∈ (A.filterMap audioRecordOkEntry).map Prod.fst :=
        dictGet_isSome_iff_mem.mp (by rw [hda]; rfl)
      rwa [audioMapKeys_eq_of_good hA] at hmem
    · have hmem : sid ∈ (buildContentMap C).map Prod.fst :=
        dictGet_isSome_iff_mem.mp (by rw [hdc]; rfl)
      rwa [contentMapKeys_eq] at hmem
  · rintro ⟨hka, hkc⟩
    have hka' : k ∈ (A.filterMap audioRecordOkEntry).map Prod.fst := by
      rw [audioMapKeys_eq_of_good hA]
      exact hka
    have hkc' : k ∈ (buildContentMap C).map Prod.fst := by
      rw [contentMapKeys_eq]
      exact hkc
    obtain ⟨a, ha⟩ := Option.isSome_iff_exists.mp (dictGet_isSome_iff_mem.mpr hka')
    obtain ⟨c, hc2⟩ := Option.isSome_iff_exists.mp (dictGet_isSome_iff_mem.mpr hkc')
    have hcomb : combineAt (A.filterMap audioRecordOkEntry) (buildContentMap C) k =
        some ⟨k, a.audio_base64, c.image_url, c.narration, c.duration⟩ :=
      combineAt_eq_some_iff.mpr ⟨a, c, ha, hc2, rfl⟩
    have hkid : k ∈ segIdsSorted ((A.filterMap audioRecordOkEntry).map (fun p => p.1))
        ((buildContentMap C).map (fun p => p.1)) := by
      unfold segIdsSorted
      rw [mem_sortedUnique]
      exact List.mem_append.mpr (Or.inl hka')
    exact List.mem_map.mpr ⟨_, List.mem_filterMap.mpr ⟨k, hkid, hcomb⟩, rfl⟩

/-- Witness for `merged_ids_intersection`: identifier 1 is on both sides
and in the output; identifier 2 is only in the content list and
identifier 3 only in the audio list, so neither is in the output. -/
theorem merged_ids_intersection_witness :
    (((1 : Int) ∈ ([({ segment_id := 1
                       audioBase64 := "QQ=="
                       imageUrl := none
                       narration := ""
                       duration := none } : CombinedSegment)]).map (fun s => s.segment_id)) ↔
      ((1 : Int) ∈ ([{ segment_id := some 1, audio_base64 := .str "QQ==" },
          { segment_id := some 3, audio_base64 := .str "Ug==" }] :
            List SegmentRecord).filterMap SegmentRecord.segment_id ∧
        (1 : Int) ∈ ([{ segment_id := some 1 }, { segment_id := some 2 }] :
            List SegmentRecord).filterMap SegmentRecord.segment_id)) ∧
    (((2 : Int) ∈ ([({ segment_id := 1
                       audioBase64 := "QQ=="
                       imageUrl := none
                       narration := ""
                       duration := none } : CombinedSegment)]).map (fun s => s.segment_id)) ↔
      ((2 : Int) ∈ ([{ segment_id := some 1, audio_base64 := .str "QQ==" },
          { segment_id := some 3, audio_base64 := .str "Ug==" }] :
            List SegmentRecord).filterMap SegmentRecord.segment_id ∧
        (2 : Int) ∈ ([{ segment_id := some 1 }, { segment_id := some 2 }] :
            List SegmentRecord).filterMap SegmentRecord.segment_id)) :=
  ⟨merged_ids_intersection
      [{ segment_id := some 1, audio_base64 := .str "QQ==" },
        { segment_id := some 3, audio_base64 := .str "Ug==" }]
      [{ segment_id := some 1 }, { segment_id := some 2 }] _
      (by decide) (by decide) 1,
    merged_ids_intersection
      [{ segment_id := some 1, audio_base64 := .str "QQ==" },
        { segment_id := some 3, audio_base64 := .str "Ug==" }]
      [{ segment_id := some 1 }, { segment_id := some 2 }] _
      (by decide) (by decide) 2⟩
